import Mathlib

/-!
Verification of the crawl-and-rank engine of `complete_crawler.py`.

The definitions below are a shallow embedding of `src/complete_crawler.py`:
pure Python functions become Lean functions on `String`/`List`, Python `set`
objects become duplicate-free `List String` values threaded through the
computation, network I/O becomes explicit oracles (`Web`, response values),
and `try/except` blocks become `Option`/`Except` recovery.  Each definition
carries a comment pointing at the source lines it models.
-/

/-! ### Basic string machinery (ASCII fragment of Python str operations) -/

/-- Lower-case one character; models Python `str.lower` on ASCII text
(all URL/keyword data in the crawler is ASCII). -/
def lowerChar (c : Char) : Char :=
  if 'A' ≤ c ∧ c ≤ 'Z' then Char.ofNat (c.toNat + 32) else c

/-- Models Python `s.lower()`. -/
def strLower (s : String) : String := String.mk (s.toList.map lowerChar)

/-- Bool test: `pat` occurs at the head of the second list. -/
def charsLead (pat : List Char) : List Char → Bool :=
  fun l =>
    match pat, l with
    | [], _ => true
    | _ :: _, [] => false
    | a :: as, b :: bs => decide (a = b) && charsLead as bs

/-- Bool test: `pat` occurs somewhere inside the second list. -/
def charsWithin (pat : List Char) : List Char → Bool
  | [] => charsLead pat []
  | c :: cs => charsLead pat (c :: cs) || charsWithin pat cs

/-- Models the Python expression `sub in s` on strings. -/
def strContains (s sub : String) : Bool := charsWithin sub.toList s.toList

/-- Whitespace recognized by Python `str.strip()` (the forms that occur in
robots.txt / sitemap text). -/
def isSpaceChar (c : Char) : Bool := c == ' ' || c == '\t' || c == '\n' || c == '\r'

/-- Models Python `s.strip()`. -/
def trimStr (s : String) : String :=
  String.mk (((s.toList.dropWhile isSpaceChar).reverse.dropWhile isSpaceChar).reverse)

/-! ### URL parsing (the fragment of urllib.parse used by the crawler) -/

/-- Split a character list at the first occurrence of the separator `sep`,
returning the part before and the part after it. -/
def splitAtSub (sep : List Char) : List Char → Option (List Char × List Char)
  | [] => if charsLead sep [] then some ([], []) else none
  | c :: cs =>
    if charsLead sep (c :: cs) then some ([], (c :: cs).drop sep.length)
    else
      match splitAtSub sep cs with
      | some (pre, post) => some (c :: pre, post)
      | none => none

/-- Models `urlparse(url).netloc` for the scheme-bearing URLs the crawler handles:
the text between `://` and the following `/`, `?` or `#`. -/
def urlNetloc (url : String) : String :=
  match splitAtSub "://".toList url.toList with
  | some (_, rest) => String.mk (rest.takeWhile (fun c => c != '/' && c != '?' && c != '#'))
  | none => ""

/-- Models lines 273-276 of `complete_crawler.py`:
`urlunparse((parsed.scheme, parsed.netloc, parsed.path, '', '', ''))`,
i.e. the URL with query and fragment stripped. -/
def cleanUrl (url : String) : String :=
  match splitAtSub "://".toList url.toList with
  | some (scheme, rest) =>
    let netloc := rest.takeWhile (fun c => c != '/' && c != '?' && c != '#')
    let tail := rest.dropWhile (fun c => c != '/' && c != '?' && c != '#')
    let path := tail.takeWhile (fun c => c != '?' && c != '#')
    String.mk (scheme ++ "://".toList ++ netloc ++ path)
  | none => String.mk (url.toList.takeWhile (fun c => c != '?' && c != '#'))

/-! ### Keyword tables (lines 31-59 of `complete_crawler.py`) -/

def KEYWORDS_PRIMARY : List String :=
  ["shipping", "delivery", "returns", "return", "refund", "exchange", "exchanges",
   "warranty", "guarantee", "shipping-policy", "return-policy", "shipping-info"]

def KEYWORDS_SECONDARY : List String :=
  ["policy", "policies", "help", "support", "faq", "faqs", "customer-service",
   "customer-care", "care", "assistance", "contact", "about"]

def PATH_KEYWORDS : List String :=
  ["return-policy", "returns-policy", "shipping-policy", "delivery-policy",
   "how-to-return", "howtoreturn", "returns-exchanges", "shipping-delivery",
   "help-center", "customer-care", "customer-service", "support-center"]

def NOISE_PATTERNS : List String :=
  ["/products/", "/product/", "/collections/", "/cart", "/checkout",
   "/search", "/account", "/signin", "/login", "/signup", "/register",
   "/blogs/", "/blog/", "/news/", "/press/", "?", "#", "/archive/"]

def NON_EN_LOCALES : List String :=
  ["/fr/", "/es/", "/de/", "/it/", "/jp/", "/zh/", "/pt/", "/ru/",
   "/mx/", "/cl/", "/cr/", "/ar/", "/br/", "/co/", "/pe/", "/uy/",
   "/ve/", "/uk/", "/tr/", "/kz/", "/kh/", "/nl/", "/sv/", "/da/"]

/-- Source list `us_patterns`, local list of `is_us_url` (lines 91-93). -/
def US_PATTERNS : List String :=
  ["/us/", "/en-us/", "/us-en/", "/en_us/", "/us_en/"]

/-- Source list `non_us_patterns`, local list of `is_us_url` (lines 96-101). -/
def NON_US_PATTERNS : List String :=
  ["/en-gb/", "/en-au/", "/en-ca/", "/en-nz/", "/en-eu/",
   "/en-it/", "/en-ch/", "/gb/", "/au/", "/ca/", "/nz/",
   "/fr/", "/fr-", "/de/", "/es/", "/it/", "/pt/", "/ru/",
   "/zh/", "/jp/", "/kr/", "/mx/", "/br/", "/ar/", "/in/"]

/-! ### URL Classifier (lines 73-112) -/

/-- Models `CompleteCrawler.is_same_domain` (lines 73-79): the target domain is a
substring of the URL's netloc, case-insensitively. -/
def is_same_domain (domain url : String) : Bool :=
  strContains (strLower (urlNetloc url)) (strLower domain)

/-- Models `CompleteCrawler.is_english_url` (lines 81-84). -/
def is_english_url (url : String) : Bool :=
  !(NON_EN_LOCALES.any (fun loc => strContains (strLower url) loc))

/-- Models `CompleteCrawler.is_us_url` (lines 86-112). -/
def is_us_url (url : String) : Bool :=
  let ul := strLower url
  if US_PATTERNS.any (fun p => strContains ul p) then true
  else if NON_US_PATTERNS.any (fun p => strContains ul p) then false
  else true

/-! ### Relevance scorer (`CompleteCrawler.score_url`, lines 114-147) -/

/-- Models `CompleteCrawler.score_url`: +5 per primary keyword, +3 per secondary,
+4 per path keyword, +2 for a common policy path segment, +3 for a US
marker, -2 per noise pattern, floored at 0. -/
def score_url (url : String) : Int :=
  let ul := strLower url
  let score : Int := 0
  let score := KEYWORDS_PRIMARY.foldl (fun s kw => if strContains ul kw then s + 5 else s) score
  let score := KEYWORDS_SECONDARY.foldl (fun s kw => if strContains ul kw then s + 3 else s) score
  let score := PATH_KEYWORDS.foldl (fun s kw => if strContains ul kw then s + 4 else s) score
  let score :=
    if ["/pages/", "/help/", "/support/", "/policies/"].any (fun p => strContains ul p)
    then score + 2 else score
  let score := if strContains ul "/us/" || strContains ul "/en-us/" then score + 3 else score
  let score := NOISE_PATTERNS.foldl (fun s n => if strContains ul n then s - 2 else s) score
  max 0 score

/-! ### Politeness-aware fetcher (`CompleteCrawler.fetch_url`, lines 149-196)

The model covers the request/429/retry logic of lines 169-196.  The network
is an oracle: `resp1` is the outcome of the first `client.get` and `resp2`
of the (at most one) retry; `.error` stands for a raised transport
exception, which the `try/except` of lines 169-196 swallows into `None`.
The per-host delay table `request_delays` is threaded explicitly; the
sleeps performed are recorded in the output, and `attempts` counts the
`client.get` calls issued. -/

/-- Models Python `int(retry_after)` on a string: strip whitespace, optional
sign, then decimal digits; any other shape raises `ValueError` (modelled as
`none`). -/
def digitsToNat (ds : List Char) : Nat :=
  ds.foldl (fun n c => n * 10 + (c.toNat - 48)) 0

def parseRetryAfter (s : String) : Option Int :=
  match (trimStr s).toList with
  | [] => none
  | c :: cs =>
    let signed : Int × List Char :=
      if c == '-' then (-1, cs) else if c == '+' then (1, cs) else (1, c :: cs)
    match signed with
    | (_, []) => none
    | (sign, ds) =>
      if ds.all (fun d => decide ('0' ≤ d) && decide (d ≤ '9'))
      then some (sign * (digitsToNat ds : Int)) else none

/-- An HTTP response as the fetcher observes it. -/
structure HResp where
  status : Nat
  retryAfter : Option String
  body : String
deriving DecidableEq

/-- Result of one `fetch_url` call: the returned text (if any), the updated
`request_delays` table, the `asyncio.sleep` durations performed in the 429
branch, and the number of GET requests issued. -/
structure FetchOutcome where
  result : Option String
  delays : List (String × Int)
  sleeps : List Int
  attempts : Nat
deriving DecidableEq

/-- Models `self.request_delays.get(domain, 2.0)` (line 160 / 182). -/
def getDelay : List (String × Int) → String → Int
  | [], _ => 2
  | (k, v) :: rest, d => if k = d then v else getDelay rest d

/-- Models `self.request_delays[domain] = v`. -/
def setDelay : List (String × Int) → String → Int → List (String × Int)
  | [], d, v => [(d, v)]
  | (k, x) :: rest, d, v => if k = d then (d, v) :: rest else (k, x) :: setDelay rest d v

/-- Outcome of a GET used as the final answer of `fetch_url`: body text on
status 200, `None` on any other status or on a raised exception
(lines 191-196). -/
def respText : Except Unit HResp → Option String
  | .error _ => none
  | .ok r => if r.status = 200 then some r.body else none

/-- Models `CompleteCrawler.fetch_url`, lines 169-196. -/
def fetch_url (delays : List (String × Int)) (url : String)
    (resp1 resp2 : Except Unit HResp) : FetchOutcome :=
  let domain := urlNetloc url
  match resp1 with
  | .error _ => ⟨none, delays, [], 1⟩
  | .ok r =>
    if r.status = 429 then
      -- `retry_after = response.headers.get('Retry-After'); if retry_after:`
      -- an absent header and an empty header value both fail the truthiness test
      if (r.retryAfter.getD "") = "" then
        -- exponential backoff branch (lines 181-186)
        let d := min (getDelay delays domain * 2) 30
        ⟨respText resp2, setDelay delays domain d, [d], 2⟩
      else
        match parseRetryAfter (r.retryAfter.getD "") with
        | some d =>
          -- lines 176-179: set the host delay to max(delay, 5), sleep, retry
          ⟨respText resp2, setDelay delays domain (max d 5), [d], 2⟩
        | none =>
          -- `int(retry_after)` raises ValueError, caught by the outer
          -- `except` of line 194: no retry, no delay update, return None
          ⟨none, delays, [], 1⟩
    else ⟨respText resp1, delays, [], 1⟩

/-! ### Crawl scheduler (`CompleteCrawler.run_complete_crawl`, lines 337-367)

Python `set` state becomes duplicate-free lists.  `asyncio.gather` over one
batch is deterministic under the single-threaded event loop: every
`crawl_page` task runs its synchronous prefix (the membership/budget check
and `crawled_urls.add`) before any fetch completes, so the batch is modelled
as: first mark the whole batch crawled (respecting the budget), then merge
the links extracted from the pages that were actually fetched.  The link
extractor's output for a page is an oracle `links : String → List String`
standing for the cleaned, classifier-filtered hrefs of that page
(`extract_links_from_html` lines 262-287, minus its crawled-set filter,
which is applied here against the post-batch crawled set). -/

structure CrawlState where
  toCrawl : List String
  found : List String
  crawled : List String
deriving DecidableEq

/-- Models Python `set.add` on a list-modelled set. -/
def addUrl (us : List String) (u : String) : List String :=
  if u ∈ us then us else us ++ [u]

/-- Lines 337-345: `found_urls.update(sitemap_urls)`, `to_crawl = {base_url}`,
`found_urls.add(base_url)`. -/
def seedState (base : String) (sitemapUrls : List String) : CrawlState :=
  ⟨[base], addUrl (sitemapUrls.foldl addUrl []) base, []⟩

/-- The synchronous prefixes of the batch's `crawl_page` tasks (lines
291-294): each batch URL is skipped if already crawled or if the page budget
is reached, otherwise added to the crawled set.  Returns the new crawled set
and the list of pages actually fetched this batch, in order. -/
def markBatch (maxPages : Nat) : List String → List String → List String × List String
  | crawled, [] => (crawled, [])
  | crawled, u :: us =>
    if u ∈ crawled ∨ maxPages ≤ crawled.length then markBatch maxPages crawled us
    else
      let r := markBatch maxPages (crawled ++ [u]) us
      (r.1, u :: r.2)

/-- Lines 357-361 for one page's result set: `new_links = result - found_urls;
found_urls.update(new_links); to_crawl.update(new_links)`.  `crawledNow` is
the crawled set at extraction time (the extractor's own
`clean_url not in self.crawled_urls` filter, line 281). -/
def addLinks (crawledNow : List String) : List String × List String → List String → List String × List String
  | ft, [] => ft
  | (f, t), l :: ls =>
    if l ∈ crawledNow ∨ l ∈ f then addLinks crawledNow (f, t) ls
    else addLinks crawledNow (f ++ [l], t ++ [l]) ls

/-- Fold of `addLinks` over the batch's fetched pages (the
`for result in results` loop, lines 357-361). -/
def mergePages (links : String → List String) (crawledNow : List String) :
    List String × List String → List String → List String × List String
  | ft, [] => ft
  | ft, p :: ps => mergePages links crawledNow (addLinks crawledNow ft (links p)) ps

/-- One iteration of the CRAWLING loop (lines 347-361): take a batch of 10,
remove it from the frontier, crawl it, merge the new links.  Also returns
the pages fetched in this iteration. -/
def crawlStep (maxPages : Nat) (links : String → List String) (st : CrawlState) :
    CrawlState × List String :=
  let batch := st.toCrawl.take 10
  let rest := st.toCrawl.drop 10
  let mb := markBatch maxPages st.crawled batch
  let ft := mergePages links mb.1 (st.found, rest) mb.2
  (⟨ft.2, ft.1, mb.1⟩, mb.2)

/-- The CRAWLING loop `while to_crawl and len(crawled_urls) < max_pages`
(line 347).  `fuel` bounds the recursion (the Python loop's own termination
is part of what is proved below).  Returns the final state, the full fetch
log (every URL for which `fetch_url` was dispatched, in order) and the
number of batch iterations executed. -/
def crawlRun (maxPages : Nat) (links : String → List String) :
    Nat → CrawlState → CrawlState × List String × Nat
  | 0, st => (st, [], 0)
  | fuel + 1, st =>
    if st.toCrawl = [] ∨ maxPages ≤ st.crawled.length then (st, [], 0)
    else
      let sp := crawlStep maxPages links st
      let r := crawlRun maxPages links fuel sp.1
      (r.1, sp.2 ++ r.2.1, r.2.2 + 1)

/-- A links oracle under which every crawled page yields one fresh link:
the frontier never empties, yet each batch holds a single URL. -/
def chainLinks (u : String) : List String := [u ++ "a"]

/-- A links oracle under which every crawled page yields two fresh links:
the frontier regrows faster than it drains. -/
def regrowLinks (u : String) : List String := [u ++ "a", u ++ "b"]

/-- Invariant of the CRAWLING loop: the frontier is a set disjoint from the
crawled set, and both live inside the discovered set. -/
def CrawlInv (st : CrawlState) : Prop :=
  st.toCrawl.Nodup ∧ (∀ u ∈ st.toCrawl, u ∈ st.found) ∧
  (∀ u ∈ st.toCrawl, u ∉ st.crawled) ∧ st.crawled.Nodup ∧
  (∀ u ∈ st.crawled, u ∈ st.found)

instance (st : CrawlState) : Decidable (CrawlInv st) := by
  unfold CrawlInv; infer_instance

/-! ### Sitemap reader (`fetch_sitemap_urls` lines 198-226 and
`process_sitemap` lines 228-260)

The network/XML layer is an oracle `Web`.  `pageText u` is the outcome of a
`fetch_url` call for `u` (`None` on any failure).  `sitemapDoc u` collapses
the raw `client.get` + optional gunzip + `etree.fromstring` of
`process_sitemap` into one result: `none` means that fetch/parse failed (or
returned non-200) and the `try/except` of lines 230-260 swallows it;
`some (locs, nested)` gives the text of the `loc` elements and the nested
sitemap-index `loc` elements.  `pageLinks u` is the set of cleaned,
classifier-filtered links that `extract_links_from_html` yields for page
`u` (before its crawled-set filter).  A `Req` records one HTTP request
issued during the session and whether it went through the rate-limited
`fetch_url` path or through a bare `client.get`. -/

structure Web where
  pageText : String → Option String
  sitemapDoc : String → Option (List String × List String)
  pageLinks : String → List String

structure Req where
  url : String
  viaFetcher : Bool
deriving DecidableEq

/-- Models `CompleteCrawler.process_sitemap` (lines 228-260).  Works on the
accumulating URL set, returns it together with the trace of HTTP requests
issued; the recursion over nested sitemaps is fuelled (Python recurses
unboundedly, guarding only against literal self-reference, line 256). -/
def process_sitemap (web : Web) (domain : String) :
    Nat → String → List String → List String × List Req
  | 0, _, urls => (urls, [])
  | fuel + 1, su, urls =>
    -- line 231: a direct `client.get(sitemap_url, ...)`, not `fetch_url`
    let req : Req := ⟨su, false⟩
    match web.sitemapDoc su with
    | none => (urls, [req])
    | some (locs, nested) =>
      -- lines 248-251: filtered loc values are added verbatim
      let urls1 := locs.foldl (fun us loc =>
        let u := trimStr loc
        if u ≠ "" ∧ is_same_domain domain u ∧ is_english_url u ∧ is_us_url u
        then addUrl us u else us) urls
      -- lines 254-257: recurse into nested sitemaps (self-reference guard)
      let r2 := nested.foldl (fun (acc : List String × List Req) nloc =>
        let nu := trimStr nloc
        if nu ≠ "" ∧ nu ≠ su then
          let r := process_sitemap web domain fuel nu acc.1
          (r.1, acc.2 ++ r.2)
        else acc) (urls1, [])
      (r2.1, req :: r2.2)

/-- Models `line.split(':', 1)[1]` for a line known to contain a colon. -/
def afterColon : List Char → List Char
  | [] => []
  | c :: cs => if c == ':' then cs else afterColon cs

/-- The robots.txt scan of lines 207-211. -/
def robotsSitemaps (content : String) : List String :=
  (content.splitOn "\n").filterMap (fun line =>
    if (strLower line).startsWith "sitemap:"
    then some (trimStr (String.mk (afterColon line.toList))) else none)

/-- Models `CompleteCrawler.fetch_sitemap_urls` (lines 198-226): robots.txt via
`fetch_url`, fallback sitemap locations, then `process_sitemap` over each
candidate.  Returns the discovered URL set and the request trace. -/
def fetch_sitemap_urls (web : Web) (domain : String) (fuel : Nat) :
    List String × List Req :=
  let base := "https://" ++ domain
  let robotsUrl := base ++ "/robots.txt"
  -- line 204: robots.txt is fetched through `fetch_url` (rate-limited)
  let fromRobots :=
    match web.pageText robotsUrl with
    | some content => if content = "" then [] else robotsSitemaps content
    | none => []
  let smUrls :=
    if fromRobots = [] then
      [base ++ "/sitemap.xml", base ++ "/sitemap_index.xml", base ++ "/sitemap.xml.gz"]
    else fromRobots
  let r := smUrls.foldl (fun (acc : List String × List Req) su =>
      let p := process_sitemap web domain fuel su acc.1
      (p.1, acc.2 ++ p.2)) ([], [])
  (r.1, ⟨robotsUrl, true⟩ :: r.2)

/-- Models the fetch of a page inside `crawl_page` (lines 297-299): a falsy body (failure or
empty text) contributes no links; otherwise the extractor's links for the
page. -/
def linksOf (web : Web) (u : String) : List String :=
  match web.pageText u with
  | none => []
  | some h => if h = "" then [] else web.pageLinks u

/-- Models `CompleteCrawler.run_complete_crawl` up to its SCORING step: seed from
sitemaps + homepage, run the CRAWLING loop.  Returns the final discovered
set. -/
def crawlDiscovered (web : Web) (domain : String) (maxPages fuel : Nat) : List String :=
  let base := "https://" ++ domain
  let sm := fetch_sitemap_urls web domain fuel
  ((crawlRun maxPages (linksOf web) fuel (seedState base sm.1)).1).found

/-- All HTTP requests issued by a crawl session, in dispatch order:
the sitemap phase's trace followed by one rate-limited `fetch_url` request
per crawled page. -/
def sessionReqs (web : Web) (domain : String) (maxPages fuel : Nat) : List Req :=
  let base := "https://" ++ domain
  let sm := fetch_sitemap_urls web domain fuel
  sm.2 ++ ((crawlRun maxPages (linksOf web) fuel (seedState base sm.1)).2.1).map
    (fun u => ⟨u, true⟩)

/-- Per-href body of `extract_links_from_html` (lines 271-282), applied to
the already-resolved absolute URL: strip query and fragment, then keep the
URL only if it passes the classifier and is not already crawled. -/
def extract_link (domain : String) (crawled : List String) (absUrl : String) : Option String :=
  let clean := cleanUrl absUrl
  if is_same_domain domain clean ∧ is_english_url clean ∧ is_us_url clean ∧ clean ∉ crawled
  then some clean else none

/-- A web on which every request fails. -/
def unreachableWeb : Web := ⟨fun _ => none, fun _ => none, fun _ => []⟩

/-- A web whose only resource is a sitemap listing two URLs that differ only
in their query string. -/
def queryWeb : Web :=
  ⟨fun _ => none,
   fun su =>
     if su = "https://shop.example/sitemap.xml" then
       some (["https://shop.example/a?x=1", "https://shop.example/a?x=2"], [])
     else none,
   fun _ => []⟩

/-! ### Scoring, ranking and the public entry point (lines 369-389) -/

/-- Lexicographic `≤` on character lists: Python string comparison on the
URLs (used as the sort tie-break). -/
def charsLE : List Char → List Char → Bool
  | [], _ => true
  | _ :: _, [] => false
  | a :: as, b :: bs => decide (a < b) || (decide (a = b) && charsLE as bs)

/-- The sort order of line 377, `key=lambda x: (-score, url)`: higher score
first, ties broken by ascending URL. -/
def pairLE (a b : Int × String) : Bool :=
  decide (b.1 < a.1) || (decide (a.1 = b.1) && charsLE a.2.toList b.2.toList)

def rankRel (a b : Int × String) : Prop := pairLE a b = true

instance : DecidableRel rankRel :=
  fun a b => inferInstanceAs (Decidable (pairLE a b = true))

/-- Lines 371-374: keep the strictly-positive-scoring discovered URLs as
`(score, url)` pairs. -/
def scoredOf (found : List String) : List (Int × String) :=
  found.filterMap (fun u => if 0 < score_url u then some (score_url u, u) else none)

/-- Lines 371-379: score, filter, sort by `(-score, url)`, return URLs.
(The model sorts with insertion sort; the order is total, so any stable
sort by this key yields the same list.) -/
def rankUrls (found : List String) : List String :=
  (List.insertionSort rankRel (scoredOf found)).map Prod.snd

/-- Models `CompleteCrawler.run_complete_crawl` (lines 306-379), end to end. -/
def run_complete_crawl (web : Web) (domain : String) (maxPages fuel : Nat) : List String :=
  rankUrls (crawlDiscovered web domain maxPages fuel)

/-- Models `find_policy_links` (lines 382-389): truncate to the caller's limit. -/
def find_policy_links (web : Web) (domain : String) (limit maxPages fuel : Nat) : List String :=
  (run_complete_crawl web domain maxPages fuel).take limit

/-- The ranking order on plain URLs: higher score first, ties by ascending
lexicographic URL. -/
def rankOrd (u v : String) : Prop :=
  score_url v < score_url u ∨ (score_url u = score_url v ∧ charsLE u.toList v.toList = true)

/-- The step function of `process_sitemap`'s nested-sitemap fold
(lines 254-257), named so the fold can be reasoned about. -/
def nestedStep (web : Web) (domain : String) (fuel : Nat) (su : String)
    (acc : List String × List Req) (nloc : String) : List String × List Req :=
  let nu := trimStr nloc
  if nu ≠ "" ∧ nu ≠ su then
    let r := process_sitemap web domain fuel nu acc.1
    (r.1, acc.2 ++ r.2)
  else acc

/-! ### Theorems -/

/-- C2 sanity: the spec scenario URL matches `shipping`, `shipping-policy`
(primary twice), `policy` (secondary), `shipping-policy` (path) and
`/pages/`. -/
theorem score_components :
    strContains (strLower "https://shop.example/pages/shipping-policy") "shipping" = true ∧
    strContains (strLower "https://shop.example/pages/shipping-policy") "shipping-policy" = true ∧
    strContains (strLower "https://shop.example/pages/shipping-policy") "policy" = true ∧
    "shipping-policy" ∈ KEYWORDS_PRIMARY ∧
    "policy" ∈ KEYWORDS_SECONDARY ∧
    "shipping-policy" ∈ PATH_KEYWORDS := by decide

/-- C2: The claim says the scenario URL scores 11 (5 + 4 + 2).  It does not:
`score_url` yields 19, because "shipping-policy" is itself a primary keyword
(+5 on top of +5 for "shipping") and "policy" is a secondary keyword (+3). -/
theorem c2_counterexample :
    score_url "https://shop.example/pages/shipping-policy" ≠ 11 := by decide

/-- C2 amended: the URL `https://shop.example/pages/shipping-policy` scores
exactly 19 = 5 ("shipping") + 5 ("shipping-policy", also primary)
+ 3 ("policy", secondary) + 4 ("shipping-policy", path) + 2 ("/pages/"),
with no penalty applying. -/
theorem c2_amended :
    score_url "https://shop.example/pages/shipping-policy" = 19 := by decide

/-- C3: on a 429 with a truthy integer `Retry-After` value r, `fetch_url`
sleeps exactly r, sets the host delay to max(r, 5), issues exactly one
retry (2 attempts total) and returns the retry's outcome; on a 429 with no
`Retry-After`, it doubles the host's current delay capped at 30, sleeps
that long, and likewise retries exactly once; and the delay written for
the host is what later reads of that host observe. -/
theorem c3_rate_limit :
    (∀ delays url body ra r resp2, parseRetryAfter ra = some r → ra ≠ "" →
      fetch_url delays url (.ok ⟨429, some ra, body⟩) resp2 =
        ⟨respText resp2, setDelay delays (urlNetloc url) (max r 5), [r], 2⟩)
    ∧ (∀ delays url body resp2,
      fetch_url delays url (.ok ⟨429, none, body⟩) resp2 =
        ⟨respText resp2,
         setDelay delays (urlNetloc url) (min (getDelay delays (urlNetloc url) * 2) 30),
         [min (getDelay delays (urlNetloc url) * 2) 30], 2⟩)
    ∧ (∀ delays host v, getDelay (setDelay delays host v) host = v) := by
  refine ⟨?_, ?_, ?_⟩
  · intro delays url body ra r resp2 hp hne
    simp [fetch_url, Option.getD, hne, hp]
  · intro delays url body resp2
    simp [fetch_url, Option.getD]
  · intro delays host v
    induction delays with
    | nil => simp [setDelay, getDelay]
    | cons kv rest ih =>
      obtain ⟨k, x⟩ := kv
      by_cases h : k = host <;> simp [setDelay, getDelay, h, ih]

/-- C3 witness: a 429 with `Retry-After: 10` followed by a 200 retry returns
the retry body, waits 10, records a 10-unit host delay, with 2 attempts. -/
theorem c3_rate_limit_witness :
    fetch_url [] "https://shop.example/x" (.ok ⟨429, some "10", ""⟩) (.ok ⟨200, none, "ok"⟩) =
      ⟨some "ok", [("shop.example", 10)], [10], 2⟩ := by
  have h := c3_rate_limit.1 [] "https://shop.example/x" "" "10" 10
    (.ok ⟨200, none, "ok"⟩) (by decide) (by decide)
  exact h.trans (by decide)

/-- C10: a 429 whose `Retry-After` value is not a plain integer (for example
the HTTP-date form) makes `int(retry_after)` raise inside the `try` block;
the exception is swallowed and the fetch returns `None` after a single
attempt, with the delay table untouched and no sleep performed. -/
theorem c10_bad_retry_after :
    ∀ delays url body ra resp2, ra ≠ "" → parseRetryAfter ra = none →
      fetch_url delays url (.ok ⟨429, some ra, body⟩) resp2 = ⟨none, delays, [], 1⟩ := by
  intro delays url body ra resp2 hne hp
  simp [fetch_url, Option.getD, hne, hp]

/-- C10 witness: an HTTP-date `Retry-After` yields `None` in one attempt,
even though the retry would have succeeded. -/
theorem c10_bad_retry_after_witness :
    fetch_url [] "https://shop.example/x"
      (.ok ⟨429, some "Wed, 21 Oct 2015 07:28:00 GMT", ""⟩) (.ok ⟨200, none, "ok"⟩) =
      ⟨none, [], [], 1⟩ :=
  c10_bad_retry_after [] "https://shop.example/x" "" "Wed, 21 Oct 2015 07:28:00 GMT"
    (.ok ⟨200, none, "ok"⟩) (by decide) (by decide)

/-- C1: the claim says the frontier at the start of CRAWLING contains the
sitemap-discovered URLs.  It does not: `to_crawl` is seeded with the
homepage alone (line 344); a filtered sitemap URL lands in `found_urls`
but not in `to_crawl`. -/
theorem c1_counterexample :
    "https://shop.example/pages/shipping-policy" ∈
      (seedState "https://shop.example" ["https://shop.example/pages/shipping-policy"]).found ∧
    "https://shop.example/pages/shipping-policy" ∉
      (seedState "https://shop.example" ["https://shop.example/pages/shipping-policy"]).toCrawl := by
  decide

/-- C5: the claim bounds the number of batch iterations by
ceil(pageBudget / batchSize).  With page budget 3 and batch size 10 that
bound is 1, but when each page yields exactly one fresh link every batch
holds a single URL and the loop runs 3 iterations before the budget stops
it (the final crawled count equals the budget, so the run terminated on the
budget, not on fuel). -/
theorem c5_counterexample :
    (crawlRun 3 chainLinks 10 (seedState "https://shop.example" [])).2.2 = 3 ∧
    ((crawlRun 3 chainLinks 10 (seedState "https://shop.example" [])).1).crawled.length = 3 ∧
    ¬ ((crawlRun 3 chainLinks 10 (seedState "https://shop.example" [])).2.2 ≤ (3 + 10 - 1) / 10) := by
  decide

/-! ### Invariants of the crawl loop -/

theorem markBatch_fst (m : Nat) (c b : List String) :
    (markBatch m c b).1 = c ++ (markBatch m c b).2 := by
  induction b generalizing c with
  | nil => simp [markBatch]
  | cons u us ih =>
    by_cases h : u ∈ c ∨ m ≤ c.length
    · simpa [markBatch, h] using ih c
    · have := ih (c ++ [u])
      simp only [markBatch, if_neg h]
      rw [this]
      simp

theorem markBatch_pages (m : Nat) (c b : List String) :
    ∀ u ∈ (markBatch m c b).2, u ∈ b ∧ u ∉ c := by
  induction b generalizing c with
  | nil => simp [markBatch]
  | cons v us ih =>
    by_cases h : v ∈ c ∨ m ≤ c.length
    · intro u hu
      simp only [markBatch, if_neg, h, if_pos h] at hu
      obtain ⟨h1, h2⟩ := ih c u hu
      exact ⟨List.mem_cons_of_mem _ h1, h2⟩
    · intro u hu
      simp only [markBatch, if_neg h] at hu
      rcases List.mem_cons.mp hu with rfl | hu2
      · exact ⟨List.mem_cons_self _ _, fun hc => h (Or.inl hc)⟩
      · obtain ⟨h1, h2⟩ := ih (c ++ [v]) u hu2
        refine ⟨List.mem_cons_of_mem _ h1, fun hc => h2 ?_⟩
        exact List.mem_append_left _ hc

theorem markBatch_pages_nodup (m : Nat) (c b : List String) :
    (markBatch m c b).2.Nodup := by
  induction b generalizing c with
  | nil => simp [markBatch]
  | cons v us ih =>
    by_cases h : v ∈ c ∨ m ≤ c.length
    · simpa [markBatch, h] using ih c
    · simp only [markBatch, if_neg h, List.nodup_cons]
      refine ⟨fun hv => ?_, ih (c ++ [v])⟩
      have := (markBatch_pages m (c ++ [v]) us v hv).2
      exact this (List.mem_append_right _ (List.mem_singleton.mpr rfl))

theorem markBatch_len (m : Nat) (c b : List String) :
    (markBatch m c b).1.length ≤ max c.length m := by
  induction b generalizing c with
  | nil => simp [markBatch]
  | cons v us ih =>
    by_cases h : v ∈ c ∨ m ≤ c.length
    · simpa [markBatch, h] using ih c
    · have hlt : c.length < m := by
        rcases not_or.mp h with ⟨_, h2⟩
        omega
      have := ih (c ++ [v])
      simp only [markBatch, if_neg h]
      have hle : max (c ++ [v]).length m = m := by
        simp [List.length_append]
        omega
      rw [hle] at this
      omega

theorem markBatch_progress (m : Nat) (c : List String) (v : String) (us : List String)
    (hv : v ∉ c) (hlen : c.length < m) :
    (markBatch m c (v :: us)).2 ≠ [] := by
  have h : ¬ (v ∈ c ∨ m ≤ c.length) := by
    intro hh
    rcases hh with h1 | h2
    · exact hv h1
    · omega
  simp [markBatch, h]

theorem addLinks_spec (cn f t ls : List String) :
    ∃ d, addLinks cn (f, t) ls = (f ++ d, t ++ d) ∧ d.Nodup ∧
      ∀ l ∈ d, l ∉ cn ∧ l ∉ f := by
  induction ls generalizing f t with
  | nil => exact ⟨[], by simp [addLinks]⟩
  | cons l ls ih =>
    by_cases h : l ∈ cn ∨ l ∈ f
    · obtain ⟨d, hd, hnd, hmem⟩ := ih f t
      exact ⟨d, by simpa [addLinks, h] using hd, hnd, hmem⟩
    · obtain ⟨d, hd, hnd, hmem⟩ := ih (f ++ [l]) (t ++ [l])
      refine ⟨l :: d, ?_, ?_, ?_⟩
      · simp only [addLinks, if_neg h]
        rw [hd]
        simp
      · refine List.nodup_cons.mpr ⟨fun hl => ?_, hnd⟩
        exact (hmem l hl).2 (List.mem_append_right _ (List.mem_singleton.mpr rfl))
      · intro x hx
        rcases List.mem_cons.mp hx with rfl | hx2
        · exact ⟨fun hc => h (Or.inl hc), fun hc => h (Or.inr hc)⟩
        · obtain ⟨h1, h2⟩ := hmem x hx2
          exact ⟨h1, fun hc => h2 (List.mem_append_left _ hc)⟩

theorem mergePages_spec (links : String → List String) (cn : List String)
    (ps : List String) (f t : List String) :
    ∃ d, mergePages links cn (f, t) ps = (f ++ d, t ++ d) ∧ d.Nodup ∧
      ∀ l ∈ d, l ∉ cn ∧ l ∉ f := by
  induction ps generalizing f t with
  | nil => exact ⟨[], by simp [mergePages]⟩
  | cons p ps ih =>
    obtain ⟨d1, hd1, hnd1, hmem1⟩ := addLinks_spec cn f t (links p)
    obtain ⟨d2, hd2, hnd2, hmem2⟩ := ih (f ++ d1) (t ++ d1)
    refine ⟨d1 ++ d2, ?_, ?_, ?_⟩
    · simp only [mergePages, hd1, hd2, List.append_assoc]
    · refine List.nodup_append.mpr ⟨hnd1, hnd2, fun x hx1 hx2 => ?_⟩
      exact (hmem2 x hx2).2 (List.mem_append_right _ hx1)
    · intro l hl
      rcases List.mem_append.mp hl with h1 | h2
      · exact hmem1 l h1
      · obtain ⟨ha, hb⟩ := hmem2 l h2
        exact ⟨ha, fun hc => hb (List.mem_append_left _ hc)⟩

/-- Everything one needs to know about one loop iteration. -/
theorem crawlStep_spec (m : Nat) (links : String → List String) (st : CrawlState) :
    ∃ d,
      (crawlStep m links st).1.crawled = st.crawled ++ (crawlStep m links st).2 ∧
      (crawlStep m links st).1.found = st.found ++ d ∧
      (crawlStep m links st).1.toCrawl = st.toCrawl.drop 10 ++ d ∧
      d.Nodup ∧
      (∀ l ∈ d, l ∉ (crawlStep m links st).1.crawled ∧ l ∉ st.found) ∧
      (∀ u ∈ (crawlStep m links st).2, u ∈ st.toCrawl.take 10 ∧ u ∉ st.crawled) ∧
      (crawlStep m links st).2.Nodup ∧
      (crawlStep m links st).1.crawled.length ≤ max st.crawled.length m := by
  obtain ⟨d, hd, hnd, hmem⟩ :=
    mergePages_spec links (markBatch m st.crawled (st.toCrawl.take 10)).1
      (markBatch m st.crawled (st.toCrawl.take 10)).2 st.found (st.toCrawl.drop 10)
  refine ⟨d, ?_, ?_, ?_, hnd, ?_, ?_, ?_, ?_⟩
  · simpa [crawlStep] using markBatch_fst m st.crawled (st.toCrawl.take 10)
  · simp [crawlStep, hd]
  · simp [crawlStep, hd]
  · intro l hl
    have h2 := hmem l hl
    constructor
    · simpa [crawlStep] using h2.1
    · exact h2.2
  · intro u hu
    simp only [crawlStep] at hu
    exact markBatch_pages m st.crawled (st.toCrawl.take 10) u hu
  · simpa [crawlStep] using markBatch_pages_nodup m st.crawled (st.toCrawl.take 10)
  · simpa [crawlStep] using markBatch_len m st.crawled (st.toCrawl.take 10)

theorem crawlInv_seed (base : String) (sitemapUrls : List String) :
    CrawlInv (seedState base sitemapUrls) := by
  refine ⟨List.nodup_singleton base, ?_, by simp [seedState], by simp [seedState], by simp [seedState]⟩
  intro u hu
  simp only [seedState, List.mem_singleton] at hu
  subst hu
  simp [seedState, addUrl]
  by_cases h : u ∈ (sitemapUrls.foldl addUrl []) <;> simp [h]

theorem crawlInv_step (m : Nat) (links : String → List String) (st : CrawlState)
    (h : CrawlInv st) : CrawlInv (crawlStep m links st).1 := by
  obtain ⟨hnd, hsub, hdisj, hcnd, hcsub⟩ := h
  obtain ⟨d, hcr, hf, htc, hdnd, hdmem, hpages, hpnd, _⟩ := crawlStep_spec m links st
  have htd : st.toCrawl = st.toCrawl.take 10 ++ st.toCrawl.drop 10 := (List.take_append_drop _ _).symm
  have hnd2 : (st.toCrawl.take 10 ++ st.toCrawl.drop 10).Nodup := by rw [← htd]; exact hnd
  have hdisj10 := (List.nodup_append.mp hnd2).2.2
  refine ⟨?_, ?_, ?_, ?_, ?_⟩
  · -- frontier nodup
    rw [htc]
    refine List.nodup_append.mpr ⟨(List.nodup_append.mp hnd2).2.1, hdnd, ?_⟩
    intro x hx1 hx2
    have hxf : x ∈ st.found := hsub x (by rw [htd]; exact List.mem_append_right _ hx1)
    exact (hdmem x hx2).2 hxf
  · -- frontier inside discovered
    intro u hu
    rw [htc] at hu
    rw [hf]
    rcases List.mem_append.mp hu with h1 | h2
    · exact List.mem_append_left _ (hsub u (by rw [htd]; exact List.mem_append_right _ h1))
    · exact List.mem_append_right _ h2
  · -- frontier disjoint from crawled
    intro u hu
    rw [htc] at hu
    rw [hcr]
    rcases List.mem_append.mp hu with h1 | h2
    · intro hc
      rcases List.mem_append.mp hc with hc1 | hc2
      · exact hdisj u (by rw [htd]; exact List.mem_append_right _ h1) hc1
      · exact hdisj10 ((hpages u hc2).1) h1
    · intro hc
      have := (hdmem u h2).1
      rw [hcr] at this
      exact this hc
  · -- crawled nodup
    rw [hcr]
    refine List.nodup_append.mpr ⟨hcnd, hpnd, ?_⟩
    intro x hx1 hx2
    exact (hpages x hx2).2 hx1
  · -- crawled inside discovered
    intro u hu
    rw [hcr] at hu
    rw [hf]
    rcases List.mem_append.mp hu with h1 | h2
    · exact List.mem_append_left _ (hcsub u h1)
    · exact List.mem_append_left _ (hsub u (List.take_subset _ _ ((hpages u h2).1)))

theorem crawlRun_succ_true (m : Nat) (links : String → List String) (fuel : Nat)
    (st : CrawlState) (hg : ¬(st.toCrawl = [] ∨ m ≤ st.crawled.length)) :
    crawlRun m links (fuel + 1) st =
      ((crawlRun m links fuel (crawlStep m links st).1).1,
       (crawlStep m links st).2 ++ (crawlRun m links fuel (crawlStep m links st).1).2.1,
       (crawlRun m links fuel (crawlStep m links st).1).2.2 + 1) := by
  simp [crawlRun, hg]

theorem crawlRun_succ_false (m : Nat) (links : String → List String) (fuel : Nat)
    (st : CrawlState) (hg : st.toCrawl = [] ∨ m ≤ st.crawled.length) :
    crawlRun m links (fuel + 1) st = (st, [], 0) := by
  simp [crawlRun, hg]

theorem crawlRun_nil_frontier (m : Nat) (links : String → List String) (fuel : Nat)
    (st : CrawlState) (h : st.toCrawl = []) :
    crawlRun m links fuel st = (st, [], 0) := by
  cases fuel with
  | zero => rfl
  | succ n => exact crawlRun_succ_false m links n st (Or.inl h)

theorem crawlStep_progress (m : Nat) (links : String → List String) (st : CrawlState)
    (h : CrawlInv st) (hne : st.toCrawl ≠ []) (hlt : st.crawled.length < m) :
    st.crawled.length < (crawlStep m links st).1.crawled.length := by
  obtain ⟨d, hcr, _, _, _, _, _, _, _⟩ := crawlStep_spec m links st
  have hpages : (crawlStep m links st).2 ≠ [] := by
    obtain ⟨v, rest, hv⟩ := List.exists_cons_of_ne_nil hne
    have hvmem : v ∈ st.toCrawl := by rw [hv]; exact List.mem_cons_self _ _
    have hvnc : v ∉ st.crawled := h.2.2.1 v hvmem
    have : (crawlStep m links st).2 = (markBatch m st.crawled (st.toCrawl.take 10)).2 := rfl
    rw [this, hv]
    have h10 : (v :: rest).take 10 = v :: rest.take 9 := rfl
    rw [h10]
    exact markBatch_progress m st.crawled v (rest.take 9) hvnc hlt
  rw [hcr, List.length_append]
  have : 0 < (crawlStep m links st).2.length := List.length_pos.mpr hpages
  omega

/-- Main induction over the CRAWLING loop: the invariant is preserved, the
final crawled set is the initial one extended by the fetch log, the crawled
count never exceeds the page budget, and the number of iterations plus the
initial crawled count is bounded by the page budget. -/
theorem crawlRun_spec (m : Nat) (links : String → List String) :
    ∀ (fuel : Nat) (st : CrawlState), CrawlInv st → st.crawled.length ≤ m →
      CrawlInv (crawlRun m links fuel st).1 ∧
      (crawlRun m links fuel st).1.crawled = st.crawled ++ (crawlRun m links fuel st).2.1 ∧
      (crawlRun m links fuel st).1.crawled.length ≤ m ∧
      (crawlRun m links fuel st).2.2 + st.crawled.length ≤ m := by
  intro fuel
  induction fuel with
  | zero => intro st h hl; exact ⟨h, by simp [crawlRun], hl, by simpa [crawlRun] using hl⟩
  | succ n ih =>
    intro st h hl
    by_cases hg : st.toCrawl = [] ∨ m ≤ st.crawled.length
    · rw [crawlRun_succ_false m links n st hg]
      exact ⟨h, by simp, hl, by simpa using hl⟩
    · have hinv2 := crawlInv_step m links st h
      have hlen2 : (crawlStep m links st).1.crawled.length ≤ m := by
        obtain ⟨_, _, _, _, _, _, _, _, hlen⟩ := crawlStep_spec m links st
        omega
      have hprog := crawlStep_progress m links st h (fun hhe => hg (Or.inl hhe))
        (by push_neg at hg; omega)
      obtain ⟨ih1, ih2, ih3, ih4⟩ := ih (crawlStep m links st).1 hinv2 hlen2
      obtain ⟨_, hcr, _, _, _, _, _, _, _⟩ := crawlStep_spec m links st
      rw [crawlRun_succ_true m links n st hg]
      refine ⟨ih1, ?_, ih3, ?_⟩
      · simp only
        rw [ih2, hcr, List.append_assoc]
      · simp only
        omega

/-- A URL already discovered but outside the frontier is never fetched, stays
discovered, and never re-enters the frontier. -/
theorem crawlRun_not_fetched (m : Nat) (links : String → List String) :
    ∀ (fuel : Nat) (st : CrawlState) (u : String), u ∈ st.found → u ∉ st.toCrawl →
      u ∉ (crawlRun m links fuel st).2.1 ∧
      u ∈ (crawlRun m links fuel st).1.found ∧
      u ∉ (crawlRun m links fuel st).1.toCrawl := by
  intro fuel
  induction fuel with
  | zero => intro st u hf ht; exact ⟨by simp [crawlRun], by simpa [crawlRun] using hf,
      by simpa [crawlRun] using ht⟩
  | succ n ih =>
    intro st u hf ht
    by_cases hg : st.toCrawl = [] ∨ m ≤ st.crawled.length
    · rw [crawlRun_succ_false m links n st hg]
      exact ⟨by simp, hf, ht⟩
    · obtain ⟨d, _, hfnd, htc, _, hdmem, hpages, _, _⟩ := crawlStep_spec m links st
      have hf2 : u ∈ (crawlStep m links st).1.found := by
        rw [hfnd]; exact List.mem_append_left _ hf
      have ht2 : u ∉ (crawlStep m links st).1.toCrawl := by
        rw [htc]
        intro hmem
        rcases List.mem_append.mp hmem with h1 | h2
        · exact ht (List.drop_subset _ _ h1)
        · exact (hdmem u h2).2 hf
      have hnp : u ∉ (crawlStep m links st).2 := by
        intro hp
        exact ht (List.take_subset _ _ ((hpages u hp).1))
      obtain ⟨ih1, ih2, ih3⟩ := ih (crawlStep m links st).1 u hf2 ht2
      rw [crawlRun_succ_true m links n st hg]
      refine ⟨?_, ih2, ih3⟩
      simp only [List.mem_append]
      rintro (h1 | h2)
      · exact hnp h1
      · exact ih1 h2

/-- C5 amended: the CRAWLING loop terminates in at most pageBudget batch
iterations (each executed iteration raises the crawled count by at least
one, and the page budget strictly bounds that count); the stronger
ceil(pageBudget / batchSize) bound of the claim fails when batches are
smaller than the batch size. -/
theorem c5_amended (maxPages fuel : Nat) (links : String → List String)
    (st : CrawlState) (h : CrawlInv st) (hl : st.crawled.length ≤ maxPages) :
    (crawlRun maxPages links fuel st).2.2 + st.crawled.length ≤ maxPages ∧
    (crawlRun maxPages links fuel st).2.2 ≤ maxPages := by
  have := (crawlRun_spec maxPages links fuel st h hl).2.2.2
  exact ⟨this, by omega⟩

/-- C5 amended witness: the seed state of the C5 scenario satisfies the
invariant, and with budget 3 the loop indeed runs at most 3 iterations. -/
theorem c5_amended_witness :
    (crawlRun 3 chainLinks 10 (seedState "https://shop.example" [])).2.2 ≤ 3 :=
  (c5_amended 3 10 chainLinks (seedState "https://shop.example" [])
    (by decide) (by decide)).2

/-- C6: across the CRAWLING loop the crawled set only grows (the final
crawled list is the initial one extended by the fetch log), its size never
exceeds the page budget, no URL is fetched twice and no URL already crawled
is ever fetched again (the whole crawled list stays duplicate-free); and in
the concrete max-pages=5 scenario whose frontier regrows faster than it
drains, the loop halts exactly when the crawled count reaches 5, with the
frontier still non-empty. -/
theorem c6_crawled_monotone_bounded (maxPages fuel : Nat)
    (links : String → List String) (st : CrawlState)
    (h : CrawlInv st) (hl : st.crawled.length ≤ maxPages) :
    ((crawlRun maxPages links fuel st).1.crawled
        = st.crawled ++ (crawlRun maxPages links fuel st).2.1 ∧
      (crawlRun maxPages links fuel st).1.crawled.length ≤ maxPages ∧
      (crawlRun maxPages links fuel st).1.crawled.Nodup) ∧
    (((crawlRun 5 regrowLinks 10 (seedState "https://shop.example" [])).1).crawled.length = 5 ∧
      ((crawlRun 5 regrowLinks 10 (seedState "https://shop.example" [])).1).toCrawl ≠ []) := by
  obtain ⟨hinv, hmono, hbound, _⟩ := crawlRun_spec maxPages links fuel st h hl
  exact ⟨⟨hmono, hbound, hinv.2.2.2.1⟩, by decide⟩

/-- C6 witness: instantiated at the scenario seed state. -/
theorem c6_crawled_monotone_bounded_witness :
    ((crawlRun 5 regrowLinks 10 (seedState "https://shop.example" [])).1).crawled.Nodup :=
  ((c6_crawled_monotone_bounded 5 10 regrowLinks (seedState "https://shop.example" [])
    (by decide) (by decide)).1).2.2

/-- C1 amended: at the start of CRAWLING the frontier is the homepage URL
alone, while the discovered set is the union of the homepage and the
filtered sitemap URLs; consequently a sitemap-discovered URL other than the
homepage is never fetched during the session and never enters the
frontier. -/
theorem c1_amended (base : String) (sitemapUrls : List String) :
    (seedState base sitemapUrls).toCrawl = [base] ∧
    (∀ u, u ∈ (seedState base sitemapUrls).found ↔ u ∈ sitemapUrls ∨ u = base) ∧
    (∀ maxPages fuel (links : String → List String) u,
      u ∈ sitemapUrls → u ≠ base →
        u ∉ (crawlRun maxPages links fuel (seedState base sitemapUrls)).2.1 ∧
        u ∉ (crawlRun maxPages links fuel (seedState base sitemapUrls)).1.toCrawl) := by
  have hmemAdd : ∀ (us : List String) v u, u ∈ addUrl us v ↔ u ∈ us ∨ u = v := by
    intro us v u
    unfold addUrl
    by_cases h : v ∈ us
    · simp only [h, if_pos]
      constructor
      · exact Or.inl
      · rintro (h1 | rfl)
        · exact h1
        · exact h
    · simp [h, List.mem_append]
  have hfold : ∀ (ls : List String) (init : List String) u,
      u ∈ ls.foldl addUrl init ↔ u ∈ init ∨ u ∈ ls := by
    intro ls
    induction ls with
    | nil => intro init u; simp
    | cons v vs ih =>
      intro init u
      rw [List.foldl_cons, ih, hmemAdd]
      constructor
      · rintro ((h1 | rfl) | h2)
        · exact Or.inl h1
        · exact Or.inr (List.mem_cons_self _ _)
        · exact Or.inr (List.mem_cons_of_mem _ h2)
      · rintro (h1 | h2)
        · exact Or.inl (Or.inl h1)
        · rcases List.mem_cons.mp h2 with rfl | h3
          · exact Or.inl (Or.inr rfl)
          · exact Or.inr h3
  have hmem : ∀ u, u ∈ (seedState base sitemapUrls).found ↔ u ∈ sitemapUrls ∨ u = base := by
    intro u
    show u ∈ addUrl (sitemapUrls.foldl addUrl []) base ↔ _
    rw [hmemAdd, hfold]
    simp only [List.not_mem_nil, false_or]
  refine ⟨rfl, hmem, ?_⟩
  intro maxPages fuel links u hu hne
  have hf : u ∈ (seedState base sitemapUrls).found := (hmem u).mpr (Or.inl hu)
  have ht : u ∉ (seedState base sitemapUrls).toCrawl := by
    simp only [seedState, List.mem_singleton]
    exact hne
  obtain ⟨h1, _, h3⟩ := crawlRun_not_fetched maxPages links fuel (seedState base sitemapUrls) u hf ht
  exact ⟨h1, h3⟩

/-- C1 amended witness: in a concrete session seeded with one sitemap URL,
that URL is never fetched. -/
theorem c1_amended_witness :
    "https://shop.example/pages/shipping-policy" ∉
      (crawlRun 3 chainLinks 10
        (seedState "https://shop.example" ["https://shop.example/pages/shipping-policy"])).2.1 :=
  ((c1_amended "https://shop.example" ["https://shop.example/pages/shipping-policy"]).2.2
    3 10 chainLinks "https://shop.example/pages/shipping-policy" (by decide) (by decide)).1

/-- C4: the claim says every URL entering the discovered set has fragment
and query stripped, so the set never holds two URLs differing only there.
Sitemap-discovered URLs are added verbatim (lines 248-251 perform no
stripping), so a sitemap listing `/a?x=1` and `/a?x=2` puts both into the
discovered set: two distinct members with the same query-and-fragment-free
form. -/
theorem c4_counterexample :
    "https://shop.example/a?x=1" ∈ crawlDiscovered queryWeb "shop.example" 5 4 ∧
    "https://shop.example/a?x=2" ∈ crawlDiscovered queryWeb "shop.example" 5 4 ∧
    "https://shop.example/a?x=1" ≠ "https://shop.example/a?x=2" ∧
    cleanUrl "https://shop.example/a?x=1" = cleanUrl "https://shop.example/a?x=2" ∧
    cleanUrl "https://shop.example/a?x=1" ≠ "https://shop.example/a?x=1" := by
  decide

/-! ### The ranking order is a total order -/

theorem charsLE_total (x : List Char) : ∀ y, charsLE x y = true ∨ charsLE y x = true := by
  induction x with
  | nil => intro y; exact Or.inl rfl
  | cons a as ih =>
    intro y
    cases y with
    | nil => exact Or.inr rfl
    | cons b bs =>
      rcases lt_trichotomy a b with h | h | h
      · left; simp [charsLE, h]
      · subst h
        rcases ih bs with h2 | h2
        · left; simp [charsLE, h2]
        · right; simp [charsLE, h2]
      · right; simp [charsLE, h]

theorem charsLE_trans : ∀ x y z : List Char,
    charsLE x y = true → charsLE y z = true → charsLE x z = true := by
  intro x
  induction x with
  | nil => intro y z _ _; rfl
  | cons a as ih =>
    intro y z hxy hyz
    cases y with
    | nil => simp [charsLE] at hxy
    | cons b bs =>
      cases z with
      | nil => simp [charsLE] at hyz
      | cons c cs =>
        simp only [charsLE, Bool.or_eq_true, Bool.and_eq_true, decide_eq_true_eq] at hxy hyz ⊢
        rcases hxy with h1 | ⟨rfl, h1⟩
        · rcases hyz with h2 | ⟨rfl, h2⟩
          · exact Or.inl (lt_trans h1 h2)
          · exact Or.inl h1
        · rcases hyz with h2 | ⟨rfl, h2⟩
          · exact Or.inl h2
          · exact Or.inr ⟨rfl, ih bs cs h1 h2⟩

theorem charsLE_antisymm : ∀ x y : List Char,
    charsLE x y = true → charsLE y x = true → x = y := by
  intro x
  induction x with
  | nil =>
    intro y _ hyx
    cases y with
    | nil => rfl
    | cons b bs => simp [charsLE] at hyx
  | cons a as ih =>
    intro y hxy hyx
    cases y with
    | nil => simp [charsLE] at hxy
    | cons b bs =>
      simp only [charsLE, Bool.or_eq_true, Bool.and_eq_true, decide_eq_true_eq] at hxy hyx
      rcases hxy with h1 | ⟨rfl, h1⟩
      · rcases hyx with h2 | ⟨h2, _⟩
        · exact absurd h2 (lt_asymm h1)
        · exact absurd (h2 ▸ h1) (lt_irrefl _)
      · rcases hyx with h2 | ⟨_, h2⟩
        · exact absurd h2 (lt_irrefl a)
        · rw [ih bs h1 h2]

theorem rankRel_total (a b : Int × String) : rankRel a b ∨ rankRel b a := by
  unfold rankRel pairLE
  simp only [Bool.or_eq_true, Bool.and_eq_true, decide_eq_true_eq]
  rcases lt_trichotomy a.1 b.1 with h | h | h
  · right; left; exact h
  · rcases charsLE_total a.2.toList b.2.toList with h2 | h2
    · left; right; exact ⟨h, h2⟩
    · right; right; exact ⟨h.symm, h2⟩
  · left; left; exact h

theorem rankRel_trans (a b c : Int × String) (hab : rankRel a b) (hbc : rankRel b c) :
    rankRel a c := by
  unfold rankRel pairLE at hab hbc ⊢
  simp only [Bool.or_eq_true, Bool.and_eq_true, decide_eq_true_eq] at hab hbc ⊢
  rcases hab with h1 | ⟨h1, h1b⟩
  · rcases hbc with h2 | ⟨h2, _⟩
    · exact Or.inl (lt_trans h2 h1)
    · exact Or.inl (h2 ▸ h1)
  · rcases hbc with h2 | ⟨h2, h2b⟩
    · exact Or.inl (h1 ▸ h2)
    · exact Or.inr ⟨h1.trans h2, charsLE_trans _ _ _ h1b h2b⟩

theorem rankRel_antisymm (a b : Int × String) (hab : rankRel a b) (hba : rankRel b a) :
    a = b := by
  unfold rankRel pairLE at hab hba
  simp only [Bool.or_eq_true, Bool.and_eq_true, decide_eq_true_eq] at hab hba
  rcases hab with h1 | ⟨h1, h1b⟩
  · rcases hba with h2 | ⟨h2, _⟩
    · exact absurd h2 (lt_asymm h1)
    · exact absurd (h2 ▸ h1) (lt_irrefl _)
  · rcases hba with h2 | ⟨_, h2b⟩
    · exact absurd (h1 ▸ h2) (lt_irrefl _)
    · have hs : a.2 = b.2 := String.ext (charsLE_antisymm _ _ h1b h2b)
      obtain ⟨x1, x2⟩ := a
      obtain ⟨y1, y2⟩ := b
      simp only at h1 hs
      rw [h1, hs]

theorem scoredOf_mem (found : List String) (p : Int × String) :
    p ∈ scoredOf found ↔ p.2 ∈ found ∧ 0 < score_url p.2 ∧ p.1 = score_url p.2 := by
  unfold scoredOf
  rw [List.mem_filterMap]
  constructor
  · rintro ⟨u, hu, hp⟩
    by_cases h : 0 < score_url u
    · rw [if_pos h] at hp
      cases hp
      exact ⟨hu, h, rfl⟩
    · rw [if_neg h] at hp
      cases hp
  · rintro ⟨hu, hpos, hsc⟩
    exact ⟨p.2, hu, by rw [if_pos hpos, ← hsc]⟩

theorem rankUrls_mem (found : List String) (u : String) :
    u ∈ rankUrls found ↔ u ∈ found ∧ 0 < score_url u := by
  unfold rankUrls
  rw [List.mem_map]
  constructor
  · rintro ⟨p, hp, rfl⟩
    have := (List.perm_insertionSort rankRel (scoredOf found)).mem_iff.mp hp
    have h2 := (scoredOf_mem found p).mp this
    exact ⟨h2.1, h2.2.1⟩
  · rintro ⟨hu, hpos⟩
    refine ⟨(score_url u, u), ?_, rfl⟩
    rw [(List.perm_insertionSort rankRel (scoredOf found)).mem_iff]
    exact (scoredOf_mem found (score_url u, u)).mpr ⟨hu, hpos, rfl⟩

theorem rankUrls_sorted (found : List String) : (rankUrls found).Pairwise rankOrd := by
  haveI : IsTotal (Int × String) rankRel := ⟨rankRel_total⟩
  haveI : IsTrans (Int × String) rankRel := ⟨rankRel_trans⟩
  unfold rankUrls
  rw [List.pairwise_map]
  have hs : (List.insertionSort rankRel (scoredOf found)).Pairwise rankRel :=
    List.sorted_insertionSort rankRel (scoredOf found)
  refine hs.imp_of_mem ?_
  intro a b ha hb hab
  have ha2 := (scoredOf_mem found a).mp
    ((List.perm_insertionSort rankRel (scoredOf found)).mem_iff.mp ha)
  have hb2 := (scoredOf_mem found b).mp
    ((List.perm_insertionSort rankRel (scoredOf found)).mem_iff.mp hb)
  unfold rankRel pairLE at hab
  simp only [Bool.or_eq_true, Bool.and_eq_true, decide_eq_true_eq] at hab
  unfold rankOrd
  rcases hab with h | ⟨h, hc⟩
  · left; rw [← ha2.2.2, ← hb2.2.2]; exact h
  · right; exact ⟨by rw [← ha2.2.2, ← hb2.2.2]; exact h, hc⟩

theorem rankUrls_perm (found found2 : List String) (h : found.Perm found2) :
    rankUrls found = rankUrls found2 := by
  haveI : IsTotal (Int × String) rankRel := ⟨rankRel_total⟩
  haveI : IsTrans (Int × String) rankRel := ⟨rankRel_trans⟩
  haveI : IsAntisymm (Int × String) rankRel := ⟨rankRel_antisymm⟩
  unfold rankUrls
  congr 1
  have hp : (List.insertionSort rankRel (scoredOf found)).Perm
      (List.insertionSort rankRel (scoredOf found2)) :=
    ((List.perm_insertionSort rankRel (scoredOf found)).trans (h.filterMap _)).trans
      (List.perm_insertionSort rankRel (scoredOf found2)).symm
  exact List.eq_of_perm_of_sorted hp
    (List.sorted_insertionSort rankRel (scoredOf found))
    (List.sorted_insertionSort rankRel (scoredOf found2))

/-- C7: the output of the scoring phase consists exactly of the discovered
URLs with strictly positive score; it is sorted by descending score with
ties broken by ascending lexicographic URL order; rerunning on the same
discovered set (in any enumeration order) yields the identical list; and
the caller's entry point truncates that list to the requested limit. -/
theorem c7_ranking :
    (∀ found u, u ∈ rankUrls found ↔ u ∈ found ∧ 0 < score_url u) ∧
    (∀ found, (rankUrls found).Pairwise rankOrd) ∧
    (∀ found found2, found.Perm found2 → rankUrls found = rankUrls found2) ∧
    (∀ web domain limit maxPages fuel,
      find_policy_links web domain limit maxPages fuel =
        (rankUrls (crawlDiscovered web domain maxPages fuel)).take limit) :=
  ⟨rankUrls_mem, rankUrls_sorted, rankUrls_perm, fun _ _ _ _ _ => rfl⟩

/-- C7 witness: the ranked list is the same for two enumeration orders of
the same discovered set. -/
theorem c7_ranking_witness :
    rankUrls ["https://shop.example/pages/shipping-policy", "https://shop.example/help"] =
      rankUrls ["https://shop.example/help", "https://shop.example/pages/shipping-policy"] :=
  c7_ranking.2.2.1 _ _
    (List.Perm.swap "https://shop.example/help" "https://shop.example/pages/shipping-policy" [])

theorem splitAtSub_https (r : List Char) :
    splitAtSub "://".toList ("https://".toList ++ r) = some ("https".toList, r) := rfl

theorem cleanUrl_https (r : List Char) :
    cleanUrl (String.mk ("https://".toList ++ r)) =
      String.mk ("https".toList ++ "://".toList ++
        r.takeWhile (fun c => c != '/' && c != '?' && c != '#') ++
        (r.dropWhile (fun c => c != '/' && c != '?' && c != '#')).takeWhile
          (fun c => c != '?' && c != '#')) := by
  show cleanUrl (String.mk ("https://".toList ++ r)) = _
  unfold cleanUrl
  have ht : (String.mk ("https://".toList ++ r)).toList = "https://".toList ++ r := rfl
  rw [ht, splitAtSub_https]

theorem cleanUrl_https_no_query_frag (r : List Char) :
    '?' ∉ (cleanUrl (String.mk ("https://".toList ++ r))).toList ∧
    '#' ∉ (cleanUrl (String.mk ("https://".toList ++ r))).toList := by
  rw [cleanUrl_https]
  have ht : (String.mk ("https".toList ++ "://".toList ++
      r.takeWhile (fun c => c != '/' && c != '?' && c != '#') ++
      (r.dropWhile (fun c => c != '/' && c != '?' && c != '#')).takeWhile
        (fun c => c != '?' && c != '#'))).toList =
      "https".toList ++ "://".toList ++
      r.takeWhile (fun c => c != '/' && c != '?' && c != '#') ++
      (r.dropWhile (fun c => c != '/' && c != '?' && c != '#')).takeWhile
        (fun c => c != '?' && c != '#') := rfl
  rw [ht]
  constructor <;>
  · intro hmem
    simp only [List.mem_append] at hmem
    rcases hmem with ((h1 | h1) | h2) | h3
    · simp at h1
    · simp at h1
    · have := List.mem_takeWhile_imp h2
      simp at this
    · have := List.mem_takeWhile_imp h3
      simp at this

/-- C4 amended: a link accepted by the extractor has had query and fragment
stripped (its cleaned form contains neither `?` nor `#`), but the sitemap
reader adds `loc` values verbatim, so the discovered set CAN contain two
URLs differing only in their query string (the claim's invariant holds for
the link-extraction path, not for the sitemap path). -/
theorem c4_amended :
    (∀ (r : List Char) (domain : String) (crawled : List String) (l : String),
      extract_link domain crawled (String.mk ("https://".toList ++ r)) = some l →
        '?' ∉ l.toList ∧ '#' ∉ l.toList) ∧
    ("https://shop.example/a?x=1" ∈ crawlDiscovered queryWeb "shop.example" 5 4 ∧
      "https://shop.example/a?x=2" ∈ crawlDiscovered queryWeb "shop.example" 5 4 ∧
      cleanUrl "https://shop.example/a?x=1" = cleanUrl "https://shop.example/a?x=2") := by
  constructor
  · intro r domain crawled l h
    simp only [extract_link] at h
    split at h
    · cases h
      exact cleanUrl_https_no_query_frag r
    · cases h
  · exact ⟨by decide, by decide, by decide⟩

/-- C4 amended witness: a concrete href with query and fragment is accepted
as its stripped form, which contains no `?` or `#`. -/
theorem c4_amended_witness :
    '?' ∉ ("https://shop.example/pages/help" : String).toList ∧
    '#' ∉ ("https://shop.example/pages/help" : String).toList :=
  c4_amended.1 "shop.example/pages/help?x=1#f".toList "shop.example" []
    "https://shop.example/pages/help" (by decide)

theorem process_sitemap_succ (web : Web) (domain : String) (fuel : Nat)
    (su : String) (urls : List String) :
    process_sitemap web domain (fuel + 1) su urls =
      match web.sitemapDoc su with
      | none => (urls, [⟨su, false⟩])
      | some (locs, nested) =>
        let urls1 := locs.foldl (fun us loc =>
          let u := trimStr loc
          if u ≠ "" ∧ is_same_domain domain u ∧ is_english_url u ∧ is_us_url u
          then addUrl us u else us) urls
        let r2 := nested.foldl (nestedStep web domain fuel su) (urls1, [])
        (r2.1, ⟨su, false⟩ :: r2.2) := rfl

/-- Every request issued by `process_sitemap` bypasses the rate-limited
fetcher (line 231 uses `client.get` directly). -/
theorem process_sitemap_reqs (web : Web) (domain : String) :
    ∀ (fuel : Nat) (su : String) (urls : List String),
      ∀ r ∈ (process_sitemap web domain fuel su urls).2, r.viaFetcher = false := by
  intro fuel
  induction fuel with
  | zero => intro su urls r hr; simp [process_sitemap] at hr
  | succ n ih =>
    intro su urls r hr
    rw [process_sitemap_succ] at hr
    cases hdoc : web.sitemapDoc su with
    | none =>
      rw [hdoc] at hr
      simp only [List.mem_singleton] at hr
      rw [hr]
    | some doc =>
      obtain ⟨locs, nested⟩ := doc
      rw [hdoc] at hr
      simp only at hr
      rcases List.mem_cons.mp hr with rfl | hr2
      · rfl
      · -- requests produced by the nested fold
        have hfold : ∀ (ns : List String) (acc : List String × List Req),
            (∀ r2 ∈ acc.2, r2.viaFetcher = false) →
            ∀ r2 ∈ (ns.foldl (nestedStep web domain n su) acc).2, r2.viaFetcher = false := by
          intro ns
          induction ns with
          | nil => intro acc hacc; exact hacc
          | cons nloc rest ihn =>
            intro acc hacc
            rw [List.foldl_cons]
            apply ihn
            intro r2 hr2
            unfold nestedStep at hr2
            by_cases hcond : trimStr nloc ≠ "" ∧ trimStr nloc ≠ su
            · rw [if_pos hcond] at hr2
              simp only [List.mem_append] at hr2
              rcases hr2 with h1 | h2
              · exact hacc r2 h1
              · exact ih (trimStr nloc) acc.1 r2 h2
            · rw [if_neg hcond] at hr2
              exact hacc r2 hr2
        exact hfold nested _ (by intro r2 hr2; simp at hr2) r hr2

/-- C8: the claim says every HTTP request of a session is issued through
the politeness-aware `fetch_url`.  It is not: `process_sitemap` contacts
the network with a bare `client.get` (line 231), so a session over an
unreachable host already issues three sitemap requests that bypass the
fetcher's per-host delay check. -/
theorem c8_counterexample :
    ¬ (∀ r ∈ sessionReqs unreachableWeb "shop.example" 500 4, r.viaFetcher = true) := by
  decide

/-- C8 amended: the robots.txt fetch and every page fetch of the CRAWLING
loop go through the rate-limited `fetch_url`, but every sitemap-document
request bypasses it; in any session the non-fetcher requests are exactly
(some of) the sitemap phase's requests. -/
theorem c8_amended :
    (∀ (web : Web) (domain : String) (fuel : Nat) (su : String) (urls : List String),
      ∀ r ∈ (process_sitemap web domain fuel su urls).2, r.viaFetcher = false) ∧
    (∀ (web : Web) (domain : String) (fuel : Nat),
      ∃ rest, (fetch_sitemap_urls web domain fuel).2 =
        ⟨"https://" ++ domain ++ "/robots.txt", true⟩ :: rest ∧
        ∀ r ∈ rest, r.viaFetcher = false) ∧
    (∀ (web : Web) (domain : String) (maxPages fuel : Nat),
      ∀ r ∈ sessionReqs web domain maxPages fuel,
        r.viaFetcher = false → r ∈ (fetch_sitemap_urls web domain fuel).2) := by
  refine ⟨fun web domain => process_sitemap_reqs web domain, ?_, ?_⟩
  · intro web domain fuel
    refine ⟨((if (match web.pageText ("https://" ++ domain ++ "/robots.txt") with
        | some content => if content = "" then [] else robotsSitemaps content
        | none => []) = [] then
          ["https://" ++ domain ++ "/sitemap.xml", "https://" ++ domain ++ "/sitemap_index.xml",
           "https://" ++ domain ++ "/sitemap.xml.gz"]
        else (match web.pageText ("https://" ++ domain ++ "/robots.txt") with
          | some content => if content = "" then [] else robotsSitemaps content
          | none => [])).foldl (fun (acc : List String × List Req) su =>
            let p := process_sitemap web domain fuel su acc.1
            (p.1, acc.2 ++ p.2)) ([], [])).2, rfl, ?_⟩
    generalize (if (match web.pageText ("https://" ++ domain ++ "/robots.txt") with
        | some content => if content = "" then [] else robotsSitemaps content
        | none => []) = [] then
          ["https://" ++ domain ++ "/sitemap.xml", "https://" ++ domain ++ "/sitemap_index.xml",
           "https://" ++ domain ++ "/sitemap.xml.gz"]
        else (match web.pageText ("https://" ++ domain ++ "/robots.txt") with
          | some content => if content = "" then [] else robotsSitemaps content
          | none => [])) = smUrls
    have hgen : ∀ (ls : List String) (acc : List String × List Req),
        (∀ r ∈ acc.2, r.viaFetcher = false) →
        ∀ r ∈ (ls.foldl (fun (acc : List String × List Req) su =>
            let p := process_sitemap web domain fuel su acc.1
            (p.1, acc.2 ++ p.2)) acc).2, r.viaFetcher = false := by
      intro ls
      induction ls with
      | nil => intro acc hacc; exact hacc
      | cons su rest ihs =>
        intro acc hacc
        rw [List.foldl_cons]
        apply ihs
        intro r hr
        simp only [List.mem_append] at hr
        rcases hr with h1 | h2
        · exact hacc r h1
        · exact process_sitemap_reqs web domain fuel su acc.1 r h2
    exact hgen smUrls ([], []) (by intro r hr; simp at hr)
  · intro web domain maxPages fuel r hr hfalse
    unfold sessionReqs at hr
    simp only [List.mem_append] at hr
    rcases hr with h1 | h2
    · exact h1
    · obtain ⟨u, _, rfl⟩ := List.mem_map.mp h2
      cases hfalse

/-- C8 amended witness: the sitemap request of a concrete session bypasses
the fetcher. -/
theorem c8_amended_witness :
    (⟨"https://shop.example/sitemap.xml", false⟩ : Req).viaFetcher = false :=
  c8_amended.1 queryWeb "shop.example" 1 "https://shop.example/sitemap.xml" []
    ⟨"https://shop.example/sitemap.xml", false⟩ (by decide)

/-! ### Total-failure behaviour (C9) -/

theorem process_sitemap_unreachable (domain : String) (fuel : Nat) (su : String)
    (urls : List String) :
    (process_sitemap unreachableWeb domain fuel su urls).1 = urls := by
  cases fuel <;> rfl

theorem fetch_sitemap_urls_unreachable (domain : String) (fuel : Nat) :
    (fetch_sitemap_urls unreachableWeb domain fuel).1 = [] := by
  cases fuel <;> rfl

theorem crawlRun_unreachable_found (base : String) (m fuel : Nat) :
    ((crawlRun m (linksOf unreachableWeb) fuel ⟨[base], [base], []⟩).1).found = [base] := by
  cases fuel with
  | zero => rfl
  | succ n =>
    cases m with
    | zero => rfl
    | succ k =>
      have hg : ¬((⟨[base], [base], []⟩ : CrawlState).toCrawl = [] ∨
          k + 1 ≤ (⟨[base], [base], []⟩ : CrawlState).crawled.length) := by
        rintro (h | h)
        · exact List.cons_ne_nil _ _ h
        · simp at h
      rw [crawlRun_succ_true (k + 1) (linksOf unreachableWeb) n _ hg]
      have hstep : (crawlStep (k + 1) (linksOf unreachableWeb) ⟨[base], [base], []⟩).1 =
          ⟨[], [base], [base]⟩ := rfl
      simp only [hstep]
      rw [crawlRun_nil_frontier _ _ _ _ rfl]

theorem rankUrls_single (u : String) :
    rankUrls [u] = if 0 < score_url u then [u] else [] := by
  unfold rankUrls scoredOf
  by_cases h : 0 < score_url u
  · simp [h, List.insertionSort]
  · simp [h]

theorem c9_unreachable_run (domain : String) (maxPages fuel : Nat) :
    run_complete_crawl unreachableWeb domain maxPages fuel =
      if 0 < score_url ("https://" ++ domain) then ["https://" ++ domain] else [] := by
  show rankUrls ((crawlRun maxPages (linksOf unreachableWeb) fuel
      (seedState ("https://" ++ domain)
        (fetch_sitemap_urls unreachableWeb domain fuel).1)).1).found = _
  rw [fetch_sitemap_urls_unreachable]
  have hseed : seedState ("https://" ++ domain) [] =
      ⟨["https://" ++ domain], ["https://" ++ domain], []⟩ := rfl
  rw [hseed, crawlRun_unreachable_found, rankUrls_single]

/-- C9: the claim says total failure surfaces as the empty list.  It does
not always: with the whole network unreachable the discovered set is just
the homepage URL, and when that URL itself matches a scoring keyword (the
domain `support.example` contains "support") the caller receives a
non-empty list naming a page that was never fetched. -/
theorem c9_counterexample :
    find_policy_links unreachableWeb "support.example" 20 500 4 = ["https://support.example"] ∧
    find_policy_links unreachableWeb "support.example" 20 500 4 ≠ [] := by
  constructor
  · decide
  · decide

/-- C9 amended: every crawl session returns a (possibly empty) list of at
most `limit` URLs — all failure paths are swallowed into recovery values,
never surfaced — and under a totally unreachable network the result is
`[homepage]` when the homepage URL itself scores positive and `[]`
otherwise (so total failure yields the empty list exactly when the homepage
URL matches no scoring keyword, as for `shop.example`). -/
theorem c9_amended :
    (∀ (web : Web) (domain : String) (limit maxPages fuel : Nat),
      (find_policy_links web domain limit maxPages fuel).length ≤ limit) ∧
    (∀ (domain : String) (maxPages fuel : Nat),
      run_complete_crawl unreachableWeb domain maxPages fuel =
        if 0 < score_url ("https://" ++ domain) then ["https://" ++ domain] else []) ∧
    find_policy_links unreachableWeb "shop.example" 20 500 4 = [] := by
  refine ⟨?_, c9_unreachable_run, by decide⟩
  intro web domain limit maxPages fuel
  unfold find_policy_links
  rw [List.length_take]
  exact min_le_left _ _
